import Mathlib

/-!
Verification of the atlas-go Kafka event-consumer subsystem
(`event/consumer.go` of the vendored atlas-go library, plus the topic and
publisher helpers) against its natural-language specification.

The Go code is shallowly embedded: pure helpers become Lean functions,
the effectful pieces (JSON codecs, the S3 large-event store, the
application handler) are abstracted as explicit function-valued oracles
carried in a model record, and the concurrent partition-processing code is
modelled by the set of action traces it can produce, indexed by an explicit
scheduler.  Go byte strings are modelled as `String`; Go's `strings.EqualFold`
is modelled by ASCII case folding (all header names and group ids used by the
code are ASCII).
-/

namespace Atlas

/-- ASCII case folding of a single character, the folding performed by Go's
`strings.EqualFold` on ASCII input. -/
def foldChar (c : Char) : Char :=
  if 'A' ≤ c ∧ c ≤ 'Z' then Char.ofNat (c.toNat + 32) else c

/-- Model of Go's `strings.EqualFold`, restricted to ASCII folding. -/
def equalFold (a b : String) : Bool :=
  a.toList.map foldChar == b.toList.map foldChar

/-- Model of Go's `strconv.ParseBool` with the error discarded (as in
`getHeaderBool`): the listed literals parse to `true`, anything else —
including every parse error — yields `false`. -/
def parseBool (s : String) : Bool :=
  s == "1" || s == "t" || s == "T" || s == "true" || s == "TRUE" || s == "True"

/-- Header constants from `event.go`. -/
def HeaderKeyGroupID : String := "groupId"

/-- Header constant marking a compact (offloaded) event, from `event.go`. -/
def HeaderKeyIsCompactEvent : String := "isCompactedEvent"

/-- One Kafka message header (`kafka.Header`): key and value. -/
structure KHeader where
  key : String
  value : String
deriving DecidableEq, Repr

/-- Model of a polled Kafka message (`kafka.Message`): the fields the consumer
code reads.  `topic` is the dereferenced `TopicPartition.Topic` (messages
reaching `processPartition` always carry one — `addMessage` rejects the rest). -/
structure KMessage where
  topic : String
  partition : Int
  offset : Int
  key : String
  headers : List KHeader
  value : String
deriving DecidableEq, Repr

/-- Embedding of `getHeader`: return the value of the first header whose key
matches case-insensitively, or the empty string if there is none. -/
def getHeader (msg : KMessage) (key : String) : String :=
  match msg.headers.find? (fun h => equalFold h.key key) with
  | some h => h.value
  | none => ""

/-- Embedding of `getHeaderBool`: `strconv.ParseBool` of `getHeader`, errors
ignored. -/
def getHeaderBool (msg : KMessage) (key : String) : Bool :=
  parseBool (getHeader msg key)

/-- Model of Go's `strings.Split(s, "__")` specialised to the separator
actually used by the topic code: split around each non-overlapping occurrence
of two consecutive underscores, scanning left to right. -/
def splitDunder : List Char → List (List Char)
  | [] => [[]]
  | '_' :: '_' :: rest => [] :: splitDunder rest
  | c :: rest =>
    match splitDunder rest with
    | [] => [[c]]
    | chunk :: chunks => (c :: chunk) :: chunks

/-- A parsed topic (`globalTopic` / `podTopic` / `orgTopic` from `topic.go`). -/
inductive TopicV where
  | globalT (name : String)
  | podT (name pod : String)
  | orgT (name pod org : String)
deriving DecidableEq, Repr

/-- Embedding of `ParseTopic`: split the id on `"__"` and build a topic from
one, two or three components; anything else is an error (`none`). -/
def ParseTopic (id : String) : Option TopicV :=
  match (splitDunder id.toList).map List.asString with
  | [n] => some (.globalT n)
  | [n, p] => some (.podT n p)
  | [n, p, o] => some (.orgT n p o)
  | _ => none

/-- Embedding of the `Event` struct from `event.go`; `headers` models the Go
`map[string]string` as an association list with exact-key lookup. -/
structure Event where
  headers : List (String × String)
  id : String
  timestamp : Int
  type : String
  contentJSON : String
deriving DecidableEq, Repr

/-- Go map read `event.Headers[k]`: the first exact-key binding, or the zero
value `""` when the key is absent. -/
def Event.header (e : Event) (k : String) : String :=
  match e.headers.find? (fun h => h.1 == k) with
  | some h => h.2
  | none => ""

/-- Oracles for `encoding/json.Unmarshal` at the two result types the consumer
uses: deserialising bytes into an `Event`, and deserialising a JSON string
literal (the stored-object key inside a placeholder's `ContentJSON`). An
error is `none`. -/
structure JsonCodec where
  parseEvent : String → Option Event
  parseString : String → Option String

/-- Embedding of `s3ExternalDownloader.Download`: fetch the object's bytes
(an oracle; `none` is a transport error) and `json.Unmarshal` them into an
`Event`. -/
def s3Download (fetch : String → Option String) (codec : JsonCodec)
    (location : String) : Option Event :=
  match fetch location with
  | none => none
  | some bs => codec.parseEvent bs

/-- Model of one `kafkaEventConsumer` together with its effect oracles: the
configured group id, the JSON codec, the `LargeEventStore` (`Download`), and
the application `Handler` (`true` means the handler returned an error). -/
structure ConsumerModel where
  groupID : String
  codec : JsonCodec
  store : String → Option Event
  handler : TopicV → Event → Bool

/-- Embedding of `kafkaEventConsumer.toEvent`: unmarshal the payload; if the
compact-event header is not set, that is the event; otherwise parse the stored
object key out of `ContentJSON` and download the real event from the store. -/
def toEvent (c : ConsumerModel) (m : KMessage) : Option Event :=
  match c.codec.parseEvent m.value with
  | none => none
  | some rawEvent =>
    if !getHeaderBool m HeaderKeyIsCompactEvent then
      some rawEvent
    else
      match c.codec.parseString rawEvent.contentJSON with
      | none => none
      | some s3ObjectKey => c.store s3ObjectKey

/-- The possible results of `handleMessage`.  The Go function returns nothing
(its doc comment: "This method does *NOT* return an error"); the constructors
record which exit path was taken.  Only `handled` means the application
handler was invoked; its flag records whether the handler returned an error
(which is logged, never propagated). -/
inductive HandleOutcome where
  | skippedGroupHeader
  | invalidTopic
  | eventConversionFailed
  | skippedEventGroup
  | handled (handlerFailed : Bool)
deriving DecidableEq, Repr

/-- Embedding of `kafkaEventConsumer.handleMessage`: group-header guard, topic
parse, event conversion, embedded-group guard, then the handler call.  Every
failure path returns an outcome instead of an error. -/
def handleMessage (c : ConsumerModel) (m : KMessage) : HandleOutcome :=
  let groupID := getHeader m HeaderKeyGroupID
  if groupID != "" && !equalFold groupID c.groupID then
    .skippedGroupHeader
  else
    match ParseTopic m.topic with
    | none => .invalidTopic
    | some topic =>
      match toEvent c m with
      | none => .eventConversionFailed
      | some event =>
        let eventGroupID := event.header HeaderKeyGroupID
        if eventGroupID != "" && !equalFold eventGroupID c.groupID then
          .skippedEventGroup
        else
          .handled (c.handler topic event)

/-- The distinct non-empty partition keys of a message list, in order of first
occurrence — the insertion order of the `byKey` map built by
`writePartitionedMessages`. -/
def nonEmptyKeys : List KMessage → List String
  | [] => []
  | m :: rest =>
    let ks := nonEmptyKeys rest
    if m.key = "" then ks
    else m.key :: ks.filter (fun k => k ≠ m.key)

/-- The runs emitted by `writePartitionedMessages`: each keyless message is its
own singleton run (emitted immediately), and each non-empty key contributes
one run holding that key's messages in polled order (the `byKey` map).  Go map
iteration order is unspecified; the model fixes first-insertion order, which
determines the same multiset of runs. -/
def runsOf (msgs : List KMessage) : List (List KMessage) :=
  (msgs.filter (fun m => m.key = "")).map (fun m => [m]) ++
    (nonEmptyKeys msgs).map (fun k => msgs.filter (fun m => m.key = k))

/-- Observable actions of `processPartition` on one partition batch: a call of
`handleMessage` on a message (with its outcome), `storeMessage` on a message,
and the deferred `resume` of the partition. -/
inductive PAction where
  | handle (m : KMessage) (outcome : HandleOutcome)
  | storeOffset (m : KMessage)
  | resume
deriving DecidableEq, Repr

/-- Merge several queues into one sequence under an explicit schedule: at each
step the schedule names the queue whose head is taken next.  `none` when the
schedule does not exactly consume all queues.  The merges of the per-run
handle sequences are exactly the handler interleavings the worker pool of
`processPartition` can produce. -/
def mergeSched {α : Type} : List Nat → List (List α) → Option (List α)
  | [], ls => if ls.all List.isEmpty then some [] else none
  | i :: sched, ls =>
    match ls.get? i with
    | some (a :: rest) => (mergeSched sched (ls.set i rest)).map (fun out => a :: out)
    | _ => none

/-- The trace of `processPartition` under a given worker schedule: some
interleaving of the key runs' `handleMessage` calls (the workers drain the
runs concurrently, each run in order), then — after the `WaitGroup` barrier —
`storeMessage` for every message in polled order, then the deferred resume. -/
def processPartitionTrace (c : ConsumerModel) (sched : List Nat)
    (msgs : List KMessage) : Option (List PAction) :=
  (mergeSched sched
      ((runsOf msgs).map (fun r => r.map (fun m => PAction.handle m (handleMessage c m))))).map
    (fun hs => hs ++ msgs.map PAction.storeOffset ++ [PAction.resume])

/-- Identity of a physical partition (`topicPartition` in `consumer.go`),
usable as a map key. -/
structure TopicPartitionKey where
  topic : String
  partition : Int
deriving DecidableEq, Repr

/-- Embedding of `messageBatch`: messages grouped by topic-partition plus the
running total count. -/
structure MessageBatch where
  messages : List (TopicPartitionKey × List KMessage)
  messageCount : Nat
deriving DecidableEq, Repr

/-- The empty batch of `newMessageBatch`. -/
def newMessageBatch : MessageBatch :=
  { messages := [], messageCount := 0 }

/-- Append a message to its topic-partition's list inside the grouped map. -/
def appendToGroup (groups : List (TopicPartitionKey × List KMessage))
    (tp : TopicPartitionKey) (m : KMessage) : List (TopicPartitionKey × List KMessage) :=
  match groups with
  | [] => [(tp, [m])]
  | (tp', ms) :: rest =>
    if tp' = tp then (tp', ms ++ [m]) :: rest
    else (tp', ms) :: appendToGroup rest tp m

/-- Embedding of `messageBatch.addMessage`: fails exactly when the message has
no topic (`newTopicPartition` requires one), otherwise appends to the
partition's list and increments the count. -/
def addMessage (b : MessageBatch) (topicMissing : Bool) (m : KMessage) :
    Option MessageBatch :=
  if topicMissing then none
  else
    some { messages := appendToGroup b.messages ⟨m.topic, m.partition⟩ m,
           messageCount := b.messageCount + 1 }

/-- One response of `consumer.Poll` inside `pollBatch`.  The end of the event
list models `Poll` returning nil (nothing available before the timeout).
`message` carries the polled record, whether its `TopicPartition.Error` was
set, and whether its topic pointer was nil. -/
inductive PollEvent where
  | assigned
  | revoked
  | message (m : KMessage) (tpError : Bool) (topicMissing : Bool)
  | kafkaError (e : String)
  | stats
deriving DecidableEq, Repr

/-- Embedding of `kafkaEventConsumer.pollBatch` as a fold over the transport's
responses: accumulate messages until the batch-size target, drop messages with
a partition error or a missing topic (logged), apply assignment/revocation and
stats events as side effects only, and on a broker `kafka.Error` return the
accumulated batch — with the error exactly when the batch is still empty.
Context cancellation is not modelled. -/
def pollBatch (batchSize : Nat) : List PollEvent → MessageBatch →
    MessageBatch × Option String
  | [], batch => (batch, none)
  | e :: rest, batch =>
    if batch.messageCount ≥ batchSize then (batch, none)
    else
      match e with
      | .assigned => pollBatch batchSize rest batch
      | .revoked => pollBatch batchSize rest batch
      | .stats => pollBatch batchSize rest batch
      | .message m tpError topicMissing =>
        if tpError then pollBatch batchSize rest batch
        else
          match addMessage batch topicMissing m with
          | none => pollBatch batchSize rest batch
          | some b2 => pollBatch batchSize rest b2
      | .kafkaError err =>
        if batch.messageCount > 0 then (batch, none)
        else (batch, some ("kafka error: " ++ err))

/-- What the `run` loop does with one `pollBatch` result: sleep for a backoff
interval on error, skip an empty batch, otherwise pause-and-dispatch the
batch's partitions. -/
inductive RunAction where
  | backoffSleep
  | skipEmpty
  | dispatch
deriving DecidableEq, Repr

/-- The branch the `run` loop takes on a `pollBatch` result. -/
def runStepAction (r : MessageBatch × Option String) : RunAction :=
  match r.2 with
  | some _ => .backoffSleep
  | none => if r.1.messageCount = 0 then .skipEmpty else .dispatch

/-- Modelled from the spec: the `backoff.ExponentialBackOff` of the external
`cenkalti/backoff` library, whose source is not part of this tree, configured
by `newKafkaEventConsumer` with `MaxInterval = 30s`.  The spec requires an
exponential backoff capped at the maximum interval whose `Reset` returns the
next wait to the base interval; the library's default growth factor is 3/2 and
its randomisation is not modelled.  Intervals are in milliseconds. -/
structure BackOffState where
  initialInterval : Nat
  maxInterval : Nat
  currentInterval : Nat
deriving DecidableEq, Repr

/-- Modelled from the spec: `NextBackOff` returns the current interval as the
wait and grows the interval by 3/2, capped at the maximum. -/
def nextBackOff (b : BackOffState) : Nat × BackOffState :=
  (b.currentInterval,
    { b with currentInterval := min (b.currentInterval * 3 / 2) b.maxInterval })

/-- Modelled from the spec: `Reset` returns the interval to the base value. -/
def resetBackOff (b : BackOffState) : BackOffState :=
  { b with currentInterval := b.initialInterval }

/-- The backoff state `newKafkaEventConsumer` starts from: the library default
base interval of 500ms with the cap overridden to 30 seconds. -/
def consumerBackOff : BackOffState :=
  { initialInterval := 500, maxInterval := 30000, currentInterval := 500 }

/-- Result of one `pollBatch` call as seen by the backoff logic of `run`. -/
inductive PollOutcome where
  | failure
  | success
deriving DecidableEq, Repr

/-- The sleeps performed by the `run` loop over a sequence of poll outcomes:
on a poll error the loop sleeps for `NextBackOff` (recorded as `some wait`);
on a successful poll it calls `Reset` and does not sleep (`none`). -/
def runSleeps : List PollOutcome → BackOffState → List (Option Nat)
  | [], _ => []
  | .failure :: rest, b =>
    let (w, b2) := nextBackOff b
    some w :: runSleeps rest b2
  | .success :: rest, b => none :: runSleeps rest (resetBackOff b)

/-- The wait durations of `n` consecutive poll failures starting from backoff
state `b`. -/
def failureWaits (n : Nat) (b : BackOffState) : List Nat :=
  (runSleeps (List.replicate n .failure) b).filterMap id

/-- Topic scopes from `topic.go`. -/
inductive TopicScope where
  | podScope
  | orgScope
  | globalScope
deriving DecidableEq, Repr

/-- A `TopicDescriptor`: scope and name. -/
structure TopicDescr where
  scope : TopicScope
  name : String
deriving DecidableEq, Repr

/-- Embedding of `buildTopicRegexes`: one subscription string per descriptor
and pod — the bare name for a global topic, `name__pod` per pod for a
pod-scoped topic, and the anchored regex `^name__pod__.+` per pod for an
org-scoped topic. -/
def buildTopicRegexes (topic : TopicDescr) (pods : List String) : List String :=
  match topic.scope with
  | .globalScope => [topic.name]
  | .podScope => pods.map (fun p => topic.name ++ "__" ++ p)
  | .orgScope => pods.map (fun p => "^" ++ topic.name ++ "__" ++ p ++ "__.+")

/-- Interpreter for the only regex shape this code emits, `^<literal>.+`
(anchored literal followed by at least one arbitrary character), reading the
literal as plain text: the string must start with the literal and extend it by
at least one character. -/
def orgPatternAccepts (pattern s : String) : Bool :=
  match pattern.toList with
  | [] => false
  | c :: rest =>
    if c = '^' then
      match rest.reverse with
      | p :: d :: revLit =>
        if p = '+' ∧ d = '.' then
          revLit.reverse.isPrefixOf s.toList &&
            decide (revLit.reverse.length < s.toList.length)
        else false
      | _ => false
    else false

/-- Embedding of the upload-threshold computation in `NewPublisher`:
`MessageMaxBytes` minus the 100 KB metadata padding, floored at zero. -/
def newPublisherUploadThreshold (messageMaxBytes : Int) : Int :=
  let t := messageMaxBytes - 100000
  if t < 0 then 0 else t

/-- Model of `s3ExternalUploader` with its config: the external bucket name,
the upload threshold, and an oracle for the length of `json.Marshal(event)`. -/
structure UploaderModel where
  bucket : String
  uploadThreshold : Int
  serializedLen : Event → Nat

/-- Embedding of `s3ExternalUploader.ShouldUpload`: false when no external
bucket is configured or the event is nil; otherwise true exactly when the
serialized JSON length strictly exceeds the threshold. -/
def ShouldUpload (u : UploaderModel) (event : Option Event) : Bool :=
  match event with
  | none => false
  | some e =>
    if u.bucket = "" then false
    else decide ((u.serializedLen e : Int) > u.uploadThreshold)

/-- Go p map-read of an association list never distinguishes `toList` from
`data`; appending strings appends the character lists. -/
theorem toList_append (s t : String) : (s ++ t).toList = s.toList ++ t.toList :=
  String.data_append s t

theorem flatten_eq_nil_of_all_isEmpty {α : Type} {ls : List (List α)}
    (h : ls.all List.isEmpty = true) : ls.flatten = [] := by
  induction ls with
  | nil => rfl
  | cons l rest ih =>
    simp only [List.all_cons, Bool.and_eq_true, List.isEmpty_iff] at h
    simp [List.flatten_cons, h.1, ih h.2]

theorem flatten_perm_of_get? {α : Type} {ls : List (List α)} {i : Nat} {a : α}
    {rest : List α} (h : ls.get? i = some (a :: rest)) :
    ls.flatten.Perm (a :: (ls.set i rest).flatten) := by
  induction ls generalizing i with
  | nil => simp at h
  | cons l tail ih =>
    cases i with
    | zero =>
      simp only [List.get?_cons_zero, Option.some.injEq] at h
      subst h
      simp [List.flatten_cons]
    | succ j =>
      simp only [List.get?_cons_succ] at h
      have hp := ih h
      have h1 : (l :: tail).flatten = l ++ tail.flatten := by simp [List.flatten_cons]
      have h2 : ((l :: tail).set (j + 1) rest).flatten = l ++ (tail.set j rest).flatten := by
        simp [List.set_cons_succ, List.flatten_cons]
      rw [h1, h2]
      exact (List.Perm.append_left l hp).trans List.perm_middle

/-- A successful `mergeSched` produces a permutation of the concatenation of
the queues. -/
theorem mergeSched_perm {α : Type} {sched : List Nat} {ls : List (List α)}
    {out : List α} (h : mergeSched sched ls = some out) : out.Perm ls.flatten := by
  induction sched generalizing ls out with
  | nil =>
    simp only [mergeSched] at h
    split at h
    · rename_i hall
      cases h
      rw [flatten_eq_nil_of_all_isEmpty hall]
    · cases h
  | cons i sched ih =>
    simp only [mergeSched] at h
    split at h
    · rename_i a rest hget
      cases hout : mergeSched sched (ls.set i rest) with
      | none => rw [hout] at h; cases h
      | some out' =>
        rw [hout] at h
        have h' : a :: out' = out := by simpa using h
        subst h'
        exact ((ih hout).cons a).trans (flatten_perm_of_get? hget).symm
    · cases h

theorem nonEmptyKeys_cons_empty {m : KMessage} {rest : List KMessage}
    (h : m.key = "") : nonEmptyKeys (m :: rest) = nonEmptyKeys rest := by
  simp [nonEmptyKeys, h]

theorem nonEmptyKeys_cons_ne {m : KMessage} {rest : List KMessage}
    (h : ¬m.key = "") :
    nonEmptyKeys (m :: rest) =
      m.key :: (nonEmptyKeys rest).filter (fun k => k ≠ m.key) := by
  simp [nonEmptyKeys, h]

theorem mem_nonEmptyKeys {k : String} {msgs : List KMessage} :
    k ∈ nonEmptyKeys msgs ↔ (k ≠ "" ∧ ∃ m ∈ msgs, m.key = k) := by
  induction msgs with
  | nil => simp [nonEmptyKeys]
  | cons m rest ih =>
    by_cases hm : m.key = ""
    · rw [nonEmptyKeys_cons_empty hm, ih]
      constructor
      · rintro ⟨hk, m', hm', hkey⟩
        exact ⟨hk, m', List.mem_cons_of_mem m hm', hkey⟩
      · rintro ⟨hk, m', hm', hkey⟩
        rcases List.mem_cons.mp hm' with h | h
        · subst h; rw [hm] at hkey; exact absurd hkey.symm hk
        · exact ⟨hk, m', h, hkey⟩
    · rw [nonEmptyKeys_cons_ne hm]
      constructor
      · intro hmem
        rcases List.mem_cons.mp hmem with h | h
        · subst h
          exact ⟨hm, m, List.mem_cons_self m rest, rfl⟩
        · have := List.mem_filter.mp h
          rcases ih.mp this.1 with ⟨hk, m', hm', hkey⟩
          exact ⟨hk, m', List.mem_cons_of_mem m hm', hkey⟩
      · rintro ⟨hk, m', hm', hkey⟩
        rcases List.mem_cons.mp hm' with h | h
        · subst h
          rw [hkey]
          exact List.mem_cons_self _ _
        · by_cases hkm : k = m.key
          · rw [hkm]
            exact List.mem_cons_self _ _
          · exact List.mem_cons_of_mem _
              (List.mem_filter.mpr ⟨ih.mpr ⟨hk, m', h, hkey⟩, by simpa using hkm⟩)

theorem nonEmptyKeys_nodup (msgs : List KMessage) : (nonEmptyKeys msgs).Nodup := by
  induction msgs with
  | nil => exact List.nodup_nil
  | cons m rest ih =>
    by_cases hm : m.key = ""
    · rw [nonEmptyKeys_cons_empty hm]; exact ih
    · rw [nonEmptyKeys_cons_ne hm]
      refine List.Nodup.cons ?_ (List.Nodup.filter _ ih)
      intro hmem
      have := List.mem_filter.mp hmem
      simp at this

theorem ne_empty_of_mem_nonEmptyKeys {k : String} {msgs : List KMessage}
    (h : k ∈ nonEmptyKeys msgs) : k ≠ "" :=
  (mem_nonEmptyKeys.mp h).1

theorem flatten_map_singleton {α : Type} (l : List α) :
    (l.map (fun a => [a])).flatten = l := by
  induction l with
  | nil => rfl
  | cons a rest ih => simp [ih]

theorem count_filter_neg {α : Type} [DecidableEq α] {p : α → Bool} {a : α}
    {l : List α} (h : p a = false) : List.count a (l.filter p) = 0 := by
  refine List.count_eq_zero_of_not_mem ?_
  intro hmem
  rw [List.mem_filter] at hmem
  rw [hmem.2] at h
  cases h

theorem sum_map_ite {ks : List String} (hnd : ks.Nodup) (k₀ : String) (c : Nat) :
    (ks.map (fun k => if k = k₀ then c else 0)).sum = if k₀ ∈ ks then c else 0 := by
  induction ks with
  | nil => simp
  | cons k ks ih =>
    rcases List.nodup_cons.mp hnd with ⟨hk, hnd'⟩
    by_cases hkk : k = k₀
    · subst hkk
      have hzero : (ks.map (fun k' => if k' = k then c else 0)).sum = 0 := by
        refine List.sum_eq_zero ?_
        intro x hx
        rcases List.mem_map.mp hx with ⟨k', hk', hval⟩
        have : k' ≠ k := fun he => hk (he ▸ hk')
        simpa [this] using hval.symm
      simp [hzero]
    · have hmem : (k₀ ∈ k :: ks) ↔ (k₀ ∈ ks) := by
        constructor
        · intro h
          rcases List.mem_cons.mp h with h | h
          · exact absurd h.symm hkk
          · exact h
        · exact List.mem_cons_of_mem k
      simp only [List.map_cons, List.sum_cons, if_neg hkk, Nat.zero_add, ih hnd']
      by_cases h0 : k₀ ∈ ks
      · simp [h0, hmem.mpr h0]
      · have hne : ¬k₀ = k := fun he => hkk he.symm
        simp [h0, hne]

/-- The runs produced by `writePartitionedMessages` concatenate to a
permutation of the input batch: no message is lost or duplicated. -/
theorem runsOf_flatten_perm (msgs : List KMessage) :
    (runsOf msgs).flatten.Perm msgs := by
  rw [List.perm_iff_count]
  intro a
  have hsplit : (runsOf msgs).flatten =
      ((msgs.filter (fun m => m.key = "")).map (fun m => [m])).flatten ++
        ((nonEmptyKeys msgs).map (fun k => msgs.filter (fun m => m.key = k))).flatten := by
    simp [runsOf]
  rw [hsplit, List.count_append, flatten_map_singleton, List.count_flatten,
    List.map_map]
  have hpoint : ∀ k : String,
      ((List.count a) ∘ (fun k => msgs.filter (fun m => m.key = k))) k =
        (fun k => if k = a.key then List.count a msgs else 0) k := by
    intro k
    by_cases hk : k = a.key
    · subst hk
      simp only [Function.comp_apply, if_pos rfl]
      exact List.count_filter (by simp)
    · have hne : a.key = k → False := fun he => hk he.symm
      simp only [Function.comp_apply, if_neg hk]
      exact count_filter_neg (by simpa using hne)
  rw [List.map_congr_left (fun k _ => hpoint k),
    sum_map_ite (nonEmptyKeys_nodup msgs) a.key (List.count a msgs)]
  by_cases ha : a.key = ""
  · have h1 : List.count a (msgs.filter (fun m => m.key = "")) = List.count a msgs :=
      List.count_filter (by simp [ha])
    have h2 : a.key ∉ nonEmptyKeys msgs := fun h =>
      ne_empty_of_mem_nonEmptyKeys h ha
    simp [h1, h2]
  · have h1 : List.count a (msgs.filter (fun m => m.key = "")) = 0 :=
      count_filter_neg (by simpa using ha)
    by_cases hmem : a.key ∈ nonEmptyKeys msgs
    · simp [h1, hmem]
    · have h0 : List.count a msgs = 0 := by
        refine List.count_eq_zero_of_not_mem ?_
        intro hin
        exact hmem (mem_nonEmptyKeys.mpr ⟨ha, a, hin, rfl⟩)
      simp [h1, hmem, h0]

/-- Structure of every trace `processPartition` can produce: an interleaving
of the per-run handler calls — a permutation of one `handleMessage` per
batch message — followed by the offset stores in polled order, followed by
the partition resume. -/
theorem processPartitionTrace_struct {c : ConsumerModel} {sched : List Nat}
    {msgs : List KMessage} {trace : List PAction}
    (h : processPartitionTrace c sched msgs = some trace) :
    ∃ hs, trace = hs ++ msgs.map PAction.storeOffset ++ [PAction.resume] ∧
      hs.Perm (msgs.map (fun m => PAction.handle m (handleMessage c m))) := by
  unfold processPartitionTrace at h
  cases hm : mergeSched sched
      ((runsOf msgs).map (fun r => r.map (fun m => PAction.handle m (handleMessage c m)))) with
  | none => rw [hm] at h; cases h
  | some hs =>
    rw [hm] at h
    have htr : hs ++ msgs.map PAction.storeOffset ++ [PAction.resume] = trace := by
      simpa using h
    refine ⟨hs, htr.symm, ?_⟩
    have hperm := mergeSched_perm hm
    rw [← List.map_flatten] at hperm
    exact hperm.trans (List.Perm.map _ (runsOf_flatten_perm msgs))

/-- The messages whose offsets a trace stores, in trace order. -/
def storesOf (trace : List PAction) : List KMessage :=
  trace.filterMap (fun a =>
    match a with
    | .storeOffset m => some m
    | _ => none)

theorem storesOf_processPartitionTrace {c : ConsumerModel} {sched : List Nat}
    {msgs : List KMessage} {trace : List PAction}
    (h : processPartitionTrace c sched msgs = some trace) :
    storesOf trace = msgs := by
  rcases processPartitionTrace_struct h with ⟨hs, htr, hperm⟩
  subst htr
  have h1 : storesOf hs = [] := by
    refine List.filterMap_eq_nil_iff.mpr ?_
    intro a ha
    have := hperm.mem_iff.mp ha
    rcases List.mem_map.mp this with ⟨m, _, hm⟩
    rw [← hm]
  have h2 : storesOf (msgs.map PAction.storeOffset) = msgs := by
    unfold storesOf
    rw [List.filterMap_map]
    have : ∀ m : KMessage,
        ((fun a =>
          match a with
          | PAction.storeOffset m => some m
          | _ => none) ∘ PAction.storeOffset) m = some m := fun m => rfl
    rw [List.filterMap_congr (fun m _ => this m)]
    exact List.filterMap_some _
  unfold storesOf at h1 h2 ⊢
  rw [List.filterMap_append, List.filterMap_append, h1, h2]
  simp

/-- Sample consumer model for concrete evaluations: every JSON parse and
download fails, the handler succeeds. -/
def sampleConsumer : ConsumerModel :=
  { groupID := "grp",
    codec := { parseEvent := fun _ => none, parseString := fun _ => none },
    store := fun _ => none,
    handler := fun _ _ => false }

/-- Sample keyless message. -/
def msgKeyless : KMessage :=
  { topic := "idn", partition := 0, offset := 0, key := "", headers := [], value := "v0" }

/-- Sample message with key `a`, polled first. -/
def msgKeyedA1 : KMessage :=
  { topic := "idn", partition := 0, offset := 1, key := "a", headers := [], value := "v1" }

/-- Sample message with key `a`, polled second. -/
def msgKeyedA2 : KMessage :=
  { topic := "idn", partition := 0, offset := 2, key := "a", headers := [], value := "v2" }

/-- C1: in `processPartition`, every trace the worker pool can produce for a
partition batch consists of the batch's `handleMessage` calls — one per
record, in some interleaving, whatever each outcome is — strictly before the
offset stores, and the offsets are then stored in the partition's original
polled order, before the final resume.  No record's offset is stored for
commit until after every record of the batch has passed through
`handleMessage`. -/
theorem C1_stores_after_all_handles (c : ConsumerModel) (sched : List Nat)
    (msgs : List KMessage) (trace : List PAction)
    (h : processPartitionTrace c sched msgs = some trace) :
    ∃ hs, trace = hs ++ msgs.map PAction.storeOffset ++ [PAction.resume] ∧
      hs.Perm (msgs.map (fun m => PAction.handle m (handleMessage c m))) :=
  processPartitionTrace_struct h

/-- Witness for C1 at a concrete three-message batch and schedule. -/
theorem C1_stores_after_all_handles_witness :
    ∃ hs,
      [PAction.handle msgKeyedA1 .eventConversionFailed,
        PAction.handle msgKeyless .eventConversionFailed,
        PAction.handle msgKeyedA2 .eventConversionFailed,
        PAction.storeOffset msgKeyedA1, PAction.storeOffset msgKeyless,
        PAction.storeOffset msgKeyedA2, PAction.resume] =
        hs ++ [msgKeyedA1, msgKeyless, msgKeyedA2].map PAction.storeOffset ++
          [PAction.resume] ∧
      hs.Perm ([msgKeyedA1, msgKeyless, msgKeyedA2].map
        (fun m => PAction.handle m (handleMessage sampleConsumer m))) :=
  C1_stores_after_all_handles sampleConsumer [1, 0, 1]
    [msgKeyedA1, msgKeyless, msgKeyedA2] _ rfl

/-- C2: `writePartitionedMessages` emits a set of runs that exactly partitions
its input: every keyless message is emitted as its own singleton run; for
every non-empty key occurring in the input, the run holding exactly that
key's messages in their original order is emitted, and it is the only emitted
run containing any message with that key; and the runs together contain
exactly the input messages. -/
theorem C2_runs_partition_input (msgs : List KMessage) :
    (∀ m ∈ msgs, m.key = "" → [m] ∈ runsOf msgs) ∧
    (∀ k : String, k ≠ "" → (∃ m ∈ msgs, m.key = k) →
      msgs.filter (fun m => m.key = k) ∈ runsOf msgs ∧
      (runsOf msgs).countP (fun r => r.any (fun m => m.key == k)) = 1) ∧
    (runsOf msgs).flatten.Perm msgs := by
  refine ⟨?_, ?_, runsOf_flatten_perm msgs⟩
  · intro m hm hkey
    refine List.mem_append.mpr (Or.inl ?_)
    exact List.mem_map.mpr ⟨m, List.mem_filter.mpr ⟨hm, by simp [hkey]⟩, rfl⟩
  · intro k hk hex
    have hkmem : k ∈ nonEmptyKeys msgs := mem_nonEmptyKeys.mpr ⟨hk, hex⟩
    constructor
    · exact List.mem_append.mpr (Or.inr (List.mem_map.mpr ⟨k, hkmem, rfl⟩))
    · unfold runsOf
      rw [List.countP_append]
      have hA : ((msgs.filter (fun m => m.key = "")).map (fun m => [m])).countP
          (fun r => r.any (fun m => m.key == k)) = 0 := by
        rw [List.countP_eq_zero]
        intro r hr
        rcases List.mem_map.mp hr with ⟨m, hm, hrm⟩
        have hkey : m.key = "" := by
          have := List.mem_filter.mp hm
          simpa using this.2
        subst hrm
        simp only [List.any_cons, List.any_nil, Bool.or_false, hkey, beq_iff_eq]
        exact fun h => hk h.symm
      have hB : ((nonEmptyKeys msgs).map
            (fun k' => msgs.filter (fun m => m.key = k'))).countP
          (fun r => r.any (fun m => m.key == k)) = 1 := by
        rw [List.countP_map]
        have hpt : ∀ k' : String,
            ((fun r => r.any (fun m => m.key == k)) ∘
              (fun k' => msgs.filter (fun m => m.key = k'))) k' = (k' == k) := by
          intro k'
          by_cases hkk : k' = k
          · subst hkk
            rcases hex with ⟨m, hm, hkey⟩
            have : (msgs.filter (fun m => m.key = k')).any
                (fun m => m.key == k') = true := by
              rw [List.any_eq_true]
              exact ⟨m, List.mem_filter.mpr ⟨hm, by simp [hkey]⟩, by simp [hkey]⟩
            simpa using this
          · have : (msgs.filter (fun m => m.key = k')).any
                (fun m => m.key == k) = false := by
              rw [List.any_eq_false]
              intro m hm
              have hkey : m.key = k' := by
                have := List.mem_filter.mp hm
                simpa using this.2
              simp [hkey, hkk]
            simp [this, hkk]
        rw [funext fun k' => hpt k']
        have : List.countP (fun k' => k' == k) (nonEmptyKeys msgs) =
            List.count k (nonEmptyKeys msgs) := rfl
        rw [this]
        exact List.count_eq_one_of_mem (nonEmptyKeys_nodup msgs) hkmem
      rw [hA, hB]

/-- Witness for C2 at a concrete batch mixing keyless and keyed records. -/
theorem C2_runs_partition_input_witness :
    [msgKeyless] ∈ runsOf [msgKeyedA1, msgKeyless, msgKeyedA2] ∧
    ([msgKeyedA1, msgKeyless, msgKeyedA2].filter (fun m => m.key = "a") ∈
        runsOf [msgKeyedA1, msgKeyless, msgKeyedA2] ∧
      (runsOf [msgKeyedA1, msgKeyless, msgKeyedA2]).countP
        (fun r => r.any (fun m => m.key == "a")) = 1) ∧
    (runsOf [msgKeyedA1, msgKeyless, msgKeyedA2]).flatten.Perm
      [msgKeyedA1, msgKeyless, msgKeyedA2] := by
  have h := C2_runs_partition_input [msgKeyedA1, msgKeyless, msgKeyedA2]
  exact ⟨h.1 msgKeyless (by decide) (by decide),
    h.2.1 "a" (by decide) ⟨msgKeyedA1, by decide, by decide⟩, h.2.2⟩

/-- Sample message whose topic id has four components, which `ParseTopic`
rejects. -/
def msgBadTopic : KMessage :=
  { topic := "a__b__c__d", partition := 0, offset := 4, key := "", headers := [],
    value := "v4" }

/-- Sample decoded event with no headers. -/
def sampleEvent : Event :=
  { headers := [], id := "e1", timestamp := 0, type := "T", contentJSON := "c" }

/-- Sample message marked as a compact event. -/
def msgCompact : KMessage :=
  { topic := "idn", partition := 0, offset := 3, key := "",
    headers := [{ key := "isCompactedEvent", value := "true" }], value := "vp" }

/-- Consumer whose payloads parse and whose store always fails. -/
def downloadFailConsumer : ConsumerModel :=
  { groupID := "grp",
    codec := { parseEvent := fun _ => some sampleEvent,
               parseString := fun _ => some "K" },
    store := fun _ => none,
    handler := fun _ _ => false }

/-- Consumer whose payloads parse and whose handler always returns an error. -/
def handlerErrConsumer : ConsumerModel :=
  { groupID := "grp",
    codec := { parseEvent := fun _ => some sampleEvent,
               parseString := fun _ => none },
    store := fun _ => none,
    handler := fun _ _ => true }

/-- C3: `handleMessage` never propagates a per-record error: an unparseable
topic, a malformed event envelope, a failed large-payload download, and a
handler-returned error each produce a logged-only outcome (the function has no
error result at all), and `processPartition` still stores every record's
offset whatever the per-record outcomes were. -/
theorem C3_per_record_errors_swallowed (c : ConsumerModel) (m : KMessage) :
    (getHeader m HeaderKeyGroupID = "" → ParseTopic m.topic = none →
      handleMessage c m = .invalidTopic) ∧
    (∀ t, getHeader m HeaderKeyGroupID = "" → ParseTopic m.topic = some t →
      toEvent c m = none → handleMessage c m = .eventConversionFailed) ∧
    (c.codec.parseEvent m.value = none → toEvent c m = none) ∧
    (∀ raw K, getHeaderBool m HeaderKeyIsCompactEvent = true →
      c.codec.parseEvent m.value = some raw →
      c.codec.parseString raw.contentJSON = some K → c.store K = none →
      toEvent c m = none) ∧
    (∀ t e, getHeader m HeaderKeyGroupID = "" → ParseTopic m.topic = some t →
      toEvent c m = some e → e.header HeaderKeyGroupID = "" →
      handleMessage c m = .handled (c.handler t e)) ∧
    (∀ sched msgs trace, processPartitionTrace c sched msgs = some trace →
      storesOf trace = msgs) := by
  refine ⟨?_, ?_, ?_, ?_, ?_, ?_⟩
  · intro hg ht
    simp [handleMessage, hg, ht]
  · intro t hg ht hte
    simp [handleMessage, hg, ht, hte]
  · intro hpe
    simp [toEvent, hpe]
  · intro raw K hb hpe hps hst
    simp [toEvent, hb, hpe, hps, hst]
  · intro t e hg ht hte hevg
    simp [handleMessage, hg, ht, hte, hevg]
  · intro sched msgs trace h
    exact storesOf_processPartitionTrace h

/-- Witness for C3: each failure mode evaluated at a concrete record, plus the
offset stores of a concrete three-record batch. -/
theorem C3_per_record_errors_swallowed_witness :
    handleMessage sampleConsumer msgBadTopic = .invalidTopic ∧
    handleMessage sampleConsumer msgKeyless = .eventConversionFailed ∧
    toEvent sampleConsumer msgKeyless = none ∧
    toEvent downloadFailConsumer msgCompact = none ∧
    handleMessage handlerErrConsumer msgKeyless = .handled true ∧
    storesOf
        [PAction.handle msgKeyedA1 .eventConversionFailed,
          PAction.handle msgKeyless .eventConversionFailed,
          PAction.handle msgKeyedA2 .eventConversionFailed,
          PAction.storeOffset msgKeyedA1, PAction.storeOffset msgKeyless,
          PAction.storeOffset msgKeyedA2, PAction.resume] =
      [msgKeyedA1, msgKeyless, msgKeyedA2] :=
  ⟨(C3_per_record_errors_swallowed sampleConsumer msgBadTopic).1 rfl rfl,
    (C3_per_record_errors_swallowed sampleConsumer msgKeyless).2.1
      (.globalT "idn") rfl rfl rfl,
    (C3_per_record_errors_swallowed sampleConsumer msgKeyless).2.2.1 rfl,
    (C3_per_record_errors_swallowed downloadFailConsumer msgCompact).2.2.2.1
      sampleEvent "K" rfl rfl rfl rfl,
    (C3_per_record_errors_swallowed handlerErrConsumer msgKeyless).2.2.2.2.1
      (.globalT "idn") sampleEvent rfl rfl rfl rfl,
    (C3_per_record_errors_swallowed sampleConsumer msgKeyless).2.2.2.2.2
      [1, 0, 1] [msgKeyedA1, msgKeyless, msgKeyedA2] _ rfl⟩

/-- Sample placeholder envelope: its content field carries the stored-object
key of the real event. -/
def placeholderEvent : Event :=
  { headers := [("isCompactedEvent", "true")], id := "e2", timestamp := 0,
    type := "T", contentJSON := "key-json" }

/-- Sample full event held in the external store. -/
def realEvent : Event :=
  { headers := [], id := "e3", timestamp := 1, type := "T", contentJSON := "big" }

/-- Consumer wired to resolve the sample placeholder to the sample real
event. -/
def compactConsumer : ConsumerModel :=
  { groupID := "grp",
    codec := { parseEvent := fun s => if s == "vp" then some placeholderEvent else none,
               parseString := fun s => if s == "key-json" then some "K" else none },
    store := fun k => if k == "K" then some realEvent else none,
    handler := fun _ _ => false }

/-- C6: when the compact-event header is set, the payload parses to a
placeholder whose content field parses to object key `K`, and the store's
download returns event `E` for `K`, then `toEvent` returns exactly `E` — not
the placeholder; when the compact-event header is not set, `toEvent` returns
the event parsed directly from the payload.  The S3 downloader itself is the
composition of the byte fetch and the JSON decode. -/
theorem C6_large_event_round_trip (c : ConsumerModel) (m : KMessage) :
    (∀ raw K E, getHeaderBool m HeaderKeyIsCompactEvent = true →
      c.codec.parseEvent m.value = some raw →
      c.codec.parseString raw.contentJSON = some K →
      c.store K = some E →
      toEvent c m = some E ∧ (raw ≠ E → toEvent c m ≠ some raw)) ∧
    (∀ raw, getHeaderBool m HeaderKeyIsCompactEvent = false →
      c.codec.parseEvent m.value = some raw → toEvent c m = some raw) ∧
    (∀ (fetch : String → Option String) (codec : JsonCodec) (K bs : String)
        (E : Event), fetch K = some bs → codec.parseEvent bs = some E →
      s3Download fetch codec K = some E) := by
  refine ⟨?_, ?_, ?_⟩
  · intro raw K E hb hpe hps hst
    have hE : toEvent c m = some E := by
      simp [toEvent, hb, hpe, hps, hst]
    refine ⟨hE, ?_⟩
    intro hne hcontra
    rw [hE] at hcontra
    exact hne (Option.some.inj hcontra).symm
  · intro raw hb hpe
    simp [toEvent, hb, hpe]
  · intro fetch codec K bs E hf hpe
    simp [s3Download, hf, hpe]

/-- Witness for C6: the concrete placeholder resolves to the stored real
event and not to itself, and a plain message parses directly. -/
theorem C6_large_event_round_trip_witness :
    (toEvent compactConsumer msgCompact = some realEvent ∧
      toEvent compactConsumer msgCompact ≠ some placeholderEvent) ∧
    toEvent compactConsumer
        { topic := "idn", partition := 0, offset := 5, key := "", headers := [],
          value := "vp" } =
      some placeholderEvent ∧
    s3Download (fun k => if k == "K" then some "vp" else none)
        compactConsumer.codec "K" =
      some placeholderEvent := by
  have h1 := (C6_large_event_round_trip compactConsumer msgCompact).1
    placeholderEvent "K" realEvent rfl rfl rfl rfl
  refine ⟨⟨h1.1, h1.2 (by decide)⟩, ?_, ?_⟩
  · exact (C6_large_event_round_trip compactConsumer
      { topic := "idn", partition := 0, offset := 5, key := "", headers := [],
        value := "vp" }).2.1 placeholderEvent rfl rfl
  · exact (C6_large_event_round_trip compactConsumer msgCompact).2.2
      (fun k => if k == "K" then some "vp" else none) compactConsumer.codec
      "K" "vp" placeholderEvent rfl rfl

/-- Sample message whose Kafka group-routing header names another service. -/
def msgOtherGroup : KMessage :=
  { topic := "idn", partition := 0, offset := 6, key := "",
    headers := [{ key := "GroupId", value := "other" }], value := "v6" }

/-- Sample event carrying an embedded group header for another service. -/
def otherGroupEvent : Event :=
  { headers := [("groupId", "other")], id := "e4", timestamp := 0, type := "T",
    contentJSON := "c" }

/-- Consumer whose payloads parse to the mis-routed sample event. -/
def otherGroupConsumer : ConsumerModel :=
  { groupID := "grp",
    codec := { parseEvent := fun _ => some otherGroupEvent,
               parseString := fun _ => none },
    store := fun _ => none,
    handler := fun _ _ => false }

/-- C7: a record whose group-routing header is present and fails the
case-insensitive match against the consumer's group id is skipped before the
handler is invoked, with no error; likewise a resolved event whose embedded
group header is present and fails the match. -/
theorem C7_group_mismatch_never_delivered (c : ConsumerModel) (m : KMessage) :
    (getHeader m HeaderKeyGroupID ≠ "" →
      equalFold (getHeader m HeaderKeyGroupID) c.groupID = false →
      handleMessage c m = .skippedGroupHeader ∧
        ∀ b, handleMessage c m ≠ .handled b) ∧
    (∀ t e,
      (getHeader m HeaderKeyGroupID = "" ∨
        equalFold (getHeader m HeaderKeyGroupID) c.groupID = true) →
      ParseTopic m.topic = some t → toEvent c m = some e →
      e.header HeaderKeyGroupID ≠ "" →
      equalFold (e.header HeaderKeyGroupID) c.groupID = false →
      handleMessage c m = .skippedEventGroup ∧
        ∀ b, handleMessage c m ≠ .handled b) := by
  constructor
  · intro hne hf
    have hcond : (getHeader m HeaderKeyGroupID != "" &&
        !equalFold (getHeader m HeaderKeyGroupID) c.groupID) = true := by
      simp [hne, hf]
    constructor
    · simp [handleMessage, hcond]
    · intro b
      simp [handleMessage, hcond]
  · intro t e hpass ht hte hne2 hf2
    have hcond : (getHeader m HeaderKeyGroupID != "" &&
        !equalFold (getHeader m HeaderKeyGroupID) c.groupID) = false := by
      rcases hpass with h | h
      · simp [h]
      · simp [h]
    have hcond2 : (e.header HeaderKeyGroupID != "" &&
        !equalFold (e.header HeaderKeyGroupID) c.groupID) = true := by
      simp [hne2, hf2]
    constructor
    · simp [handleMessage, hcond, ht, hte, hcond2]
    · intro b
      simp [handleMessage, hcond, ht, hte, hcond2]

/-- Witness for C7: a concrete mis-routed record (by Kafka header, looked up
case-insensitively) and a concrete mis-routed resolved event are both
skipped. -/
theorem C7_group_mismatch_never_delivered_witness :
    (handleMessage sampleConsumer msgOtherGroup = .skippedGroupHeader ∧
      ∀ b, handleMessage sampleConsumer msgOtherGroup ≠ .handled b) ∧
    (handleMessage otherGroupConsumer msgKeyless = .skippedEventGroup ∧
      ∀ b, handleMessage otherGroupConsumer msgKeyless ≠ .handled b) :=
  ⟨(C7_group_mismatch_never_delivered sampleConsumer msgOtherGroup).1
      (by decide) (by decide),
    (C7_group_mismatch_never_delivered otherGroupConsumer msgKeyless).2
      (.globalT "idn") otherGroupEvent (Or.inl rfl) rfl rfl (by decide)
      (by decide)⟩

/-- Sample event whose embedded group header matches `grp` only up to case. -/
def caseFoldEvent : Event :=
  { headers := [("groupId", "GRP")], id := "e5", timestamp := 0, type := "T",
    contentJSON := "c" }

/-- Consumer whose payloads parse to the case-folded sample event. -/
def caseFoldConsumer : ConsumerModel :=
  { groupID := "grp",
    codec := { parseEvent := fun _ => some caseFoldEvent,
               parseString := fun _ => none },
    store := fun _ => none,
    handler := fun _ _ => false }

/-- Sample message whose group header matches `grp` only up to case, under a
differently-cased header name. -/
def msgCaseFold : KMessage :=
  { topic := "idn", partition := 0, offset := 7, key := "",
    headers := [{ key := "GROUPID", value := "GRP" }], value := "v7" }

/-- C10: group routing is case-insensitive at both guards.  `getHeader`
returns the value of the first header whose name matches case-insensitively
and the empty string when none does; a group-id value equal to the consumer's
group id under case folding is treated as a match at both the Kafka-header
guard and the embedded-event guard; and a record whose group header is absent
or empty is never skipped by group routing — it is delivered whenever topic
parsing and event conversion succeed and the resolved event's own group
header is also absent or empty. -/
theorem C10_group_matching_case_insensitive (c : ConsumerModel) (m : KMessage)
    (k : String) :
    ((∀ h ∈ m.headers, equalFold h.key k = false) → getHeader m k = "") ∧
    (∀ pre hd post, m.headers = pre ++ hd :: post → equalFold hd.key k = true →
      (∀ h ∈ pre, equalFold h.key k = false) → getHeader m k = hd.value) ∧
    (∀ t e, equalFold (getHeader m HeaderKeyGroupID) c.groupID = true →
      ParseTopic m.topic = some t → toEvent c m = some e →
      equalFold (e.header HeaderKeyGroupID) c.groupID = true →
      handleMessage c m = .handled (c.handler t e)) ∧
    (getHeader m HeaderKeyGroupID = "" →
      handleMessage c m ≠ .skippedGroupHeader) ∧
    (∀ t e, getHeader m HeaderKeyGroupID = "" → ParseTopic m.topic = some t →
      toEvent c m = some e → e.header HeaderKeyGroupID = "" →
      handleMessage c m = .handled (c.handler t e)) := by
  refine ⟨?_, ?_, ?_, ?_, ?_⟩
  · intro hall
    unfold getHeader
    rw [List.find?_eq_none.mpr (fun h hmem => by simp [hall h hmem])]
  · intro pre hd post hsplit hhd hpre
    unfold getHeader
    rw [hsplit, List.find?_append,
      List.find?_eq_none.mpr (fun h hmem => by simp [hpre h hmem]),
      Option.none_or, List.find?_cons_of_pos _ (by simpa using hhd)]
  · intro t e hf ht hte hf2
    have hcond : (getHeader m HeaderKeyGroupID != "" &&
        !equalFold (getHeader m HeaderKeyGroupID) c.groupID) = false := by
      simp [hf]
    have hcond2 : (e.header HeaderKeyGroupID != "" &&
        !equalFold (e.header HeaderKeyGroupID) c.groupID) = false := by
      simp [hf2]
    simp [handleMessage, hcond, ht, hte, hcond2]
  · intro hg
    have hcond : (getHeader m HeaderKeyGroupID != "" &&
        !equalFold (getHeader m HeaderKeyGroupID) c.groupID) = false := by
      simp [hg]
    cases hpt : ParseTopic m.topic with
    | none => simp [handleMessage, hcond, hpt]
    | some t =>
      cases hte : toEvent c m with
      | none => simp [handleMessage, hcond, hpt, hte]
      | some e =>
        by_cases hev : (e.header HeaderKeyGroupID != "" &&
            !equalFold (e.header HeaderKeyGroupID) c.groupID) = true
        · simp [handleMessage, hcond, hpt, hte, hev]
        · have hev' : (e.header HeaderKeyGroupID != "" &&
              !equalFold (e.header HeaderKeyGroupID) c.groupID) = false :=
            Bool.eq_false_iff.mpr hev
          simp [handleMessage, hcond, hpt, hte, hev']
  · intro t e hg ht hte hevg
    simp [handleMessage, hg, ht, hte, hevg]

/-- Witness for C10: the header lookup, both case-folded matches, and the
empty-header delivery evaluated on concrete records. -/
theorem C10_group_matching_case_insensitive_witness :
    getHeader msgKeyless "groupId" = "" ∧
    getHeader msgOtherGroup "groupId" = "other" ∧
    handleMessage caseFoldConsumer msgCaseFold = .handled false ∧
    handleMessage sampleConsumer msgKeyless ≠ .skippedGroupHeader ∧
    handleMessage handlerErrConsumer msgKeyless = .handled true := by
  refine ⟨?_, ?_, ?_, ?_, ?_⟩
  · exact (C10_group_matching_case_insensitive sampleConsumer msgKeyless
      "groupId").1 (by decide)
  · exact (C10_group_matching_case_insensitive sampleConsumer msgOtherGroup
      "groupId").2.1 [] { key := "GroupId", value := "other" } [] rfl
      (by decide) (by decide)
  · exact (C10_group_matching_case_insensitive caseFoldConsumer msgCaseFold
      "groupId").2.2.1 (.globalT "idn") caseFoldEvent (by decide) rfl rfl
      (by decide)
  · exact (C10_group_matching_case_insensitive sampleConsumer msgKeyless
      "groupId").2.2.2.1 rfl
  · exact (C10_group_matching_case_insensitive handlerErrConsumer msgKeyless
      "groupId").2.2.2.2 (.globalT "idn") sampleEvent rfl rfl rfl rfl

theorem pollBatch_eq_error_imp {bs : Nat} :
    ∀ (events : List PollEvent) (batch : MessageBatch)
      (res : MessageBatch × Option String), pollBatch bs events batch = res →
      res.2.isSome = true → res.1.messageCount = 0 := by
  intro events
  induction events with
  | nil =>
    intro batch res h hsome
    simp only [pollBatch] at h
    rw [← h] at hsome
    simp at hsome
  | cons e rest ih =>
    intro batch res h hsome
    simp only [pollBatch] at h
    split at h
    · rw [← h] at hsome
      simp at hsome
    · rename_i hge
      split at h
      · exact ih batch res h hsome
      · exact ih batch res h hsome
      · exact ih batch res h hsome
      · split at h
        · exact ih batch res h hsome
        · split at h
          · exact ih batch res h hsome
          · exact ih _ res h hsome
      · split at h
        · rw [← h] at hsome
          simp at hsome
        · rename_i hpos
          rw [← h]
          simpa using Nat.eq_zero_of_not_pos hpos

theorem pollBatch_isSome_count {bs : Nat} :
    ∀ (events : List PollEvent) (batch : MessageBatch),
      ((pollBatch bs events batch).2).isSome = true →
      (pollBatch bs events batch).1.messageCount = 0 := fun events batch h =>
  pollBatch_eq_error_imp events batch _ rfl h

/-- A concrete one-message batch. -/
def batchOne : MessageBatch :=
  { messages := [(⟨"idn", 0⟩, [msgKeyless])], messageCount := 1 }

/-- C5: when the transport yields a broker error, `pollBatch` returns an error
only if the accumulated batch is empty — every error return carries a batch of
count zero; when at least one message has been accumulated, the broker error
is swallowed and the partial batch is returned with no error, so the `run`
loop dispatches it rather than entering the backoff sleep; with an empty
batch the broker error is returned as an error. -/
theorem C5_broker_error_keeps_batch (bs : Nat) :
    (∀ events batch, ((pollBatch bs events batch).2).isSome = true →
      (pollBatch bs events batch).1.messageCount = 0) ∧
    (∀ err rest batch, 0 < batch.messageCount →
      pollBatch bs (.kafkaError err :: rest) batch = (batch, none)) ∧
    (∀ err rest batch, 0 < batch.messageCount →
      runStepAction (pollBatch bs (.kafkaError err :: rest) batch) =
        .dispatch) ∧
    (∀ err rest, 0 < bs →
      pollBatch bs (.kafkaError err :: rest) newMessageBatch =
        (newMessageBatch, some ("kafka error: " ++ err))) := by
  have hb : ∀ err rest (batch : MessageBatch), 0 < batch.messageCount →
      pollBatch bs (.kafkaError err :: rest) batch = (batch, none) := by
    intro err rest batch hpos
    simp only [pollBatch]
    by_cases hge : batch.messageCount ≥ bs
    · rw [if_pos hge]
    · rw [if_neg hge, if_pos hpos]
  refine ⟨pollBatch_isSome_count, hb, ?_, ?_⟩
  · intro err rest batch hpos
    rw [hb err rest batch hpos]
    have : batch.messageCount ≠ 0 := Nat.pos_iff_ne_zero.mp hpos
    simp [runStepAction, this]
  · intro err rest hbs
    simp only [pollBatch]
    have hge : ¬newMessageBatch.messageCount ≥ bs := by
      simp [newMessageBatch]
      omega
    rw [if_neg hge]
    simp [newMessageBatch]

/-- Witness for C5 with a concrete broker error against an empty and a
one-message batch. -/
theorem C5_broker_error_keeps_batch_witness :
    (pollBatch 64 [PollEvent.kafkaError "boom"] newMessageBatch).1.messageCount
        = 0 ∧
    pollBatch 64 [PollEvent.kafkaError "boom"] batchOne = (batchOne, none) ∧
    runStepAction (pollBatch 64 [PollEvent.kafkaError "boom"] batchOne) =
      .dispatch ∧
    pollBatch 64 [PollEvent.kafkaError "boom"] newMessageBatch =
      (newMessageBatch, some "kafka error: boom") :=
  ⟨(C5_broker_error_keeps_batch 64).1 [PollEvent.kafkaError "boom"]
      newMessageBatch rfl,
    (C5_broker_error_keeps_batch 64).2.1 "boom" [] batchOne (by decide),
    (C5_broker_error_keeps_batch 64).2.2.1 "boom" [] batchOne (by decide),
    (C5_broker_error_keeps_batch 64).2.2.2 "boom" [] (by decide)⟩

theorem nextBackOff_wait (b : BackOffState) : (nextBackOff b).1 = b.currentInterval :=
  rfl

theorem nextBackOff_le_max {b : BackOffState} :
    (nextBackOff b).2.currentInterval ≤ b.maxInterval :=
  min_le_right _ _

theorem le_nextBackOff {b : BackOffState}
    (h : b.currentInterval ≤ b.maxInterval) :
    b.currentInterval ≤ (nextBackOff b).2.currentInterval := by
  refine le_min ?_ h
  calc b.currentInterval = b.currentInterval * 2 / 2 :=
        (Nat.mul_div_cancel b.currentInterval (by omega)).symm
    _ ≤ b.currentInterval * 3 / 2 := Nat.div_le_div_right (by omega)

theorem failureWaits_zero (b : BackOffState) : failureWaits 0 b = [] := rfl

theorem failureWaits_succ (n : Nat) (b : BackOffState) :
    failureWaits (n + 1) b = b.currentInterval :: failureWaits n (nextBackOff b).2 := by
  simp [failureWaits, List.replicate_succ, runSleeps, nextBackOff]

theorem failureWaits_chain :
    ∀ (n : Nat) (b : BackOffState), b.currentInterval ≤ b.maxInterval →
      List.Chain' (· ≤ ·) (failureWaits n b) ∧
        ∀ w ∈ failureWaits n b, w ≤ b.maxInterval := by
  intro n
  induction n with
  | zero => intro b _; simp [failureWaits_zero]
  | succ n ih =>
    intro b hb
    have hb2 : (nextBackOff b).2.currentInterval ≤ (nextBackOff b).2.maxInterval := by
      have : (nextBackOff b).2.maxInterval = b.maxInterval := rfl
      rw [this]
      exact nextBackOff_le_max
    rcases ih (nextBackOff b).2 hb2 with ⟨hchain, hbound⟩
    rw [failureWaits_succ]
    constructor
    · rw [List.chain'_cons']
      refine ⟨?_, hchain⟩
      intro y hy
      cases n with
      | zero => simp [failureWaits_zero] at hy
      | succ n' =>
        rw [failureWaits_succ] at hy
        simp only [List.head?_cons, Option.mem_def, Option.some.injEq] at hy
        rw [← hy]
        exact le_nextBackOff hb
    · intro w hw
      rcases List.mem_cons.mp hw with h | h
      · rw [h]; exact hb
      · have := hbound w h
        simpa using this

/-- C4: modelled from the spec (the `cenkalti/backoff` library source is not
in this tree): within any run of consecutive poll failures the backoff sleep
durations are non-decreasing and never exceed the configured cap, and a
successful poll resets the backoff so that the next failure's wait is the base
interval again.  The consumer's configuration fixes the cap at 30 seconds over
a 500ms base. -/
theorem C4_backoff_monotone_and_reset (b : BackOffState)
    (h : b.currentInterval ≤ b.maxInterval) :
    (∀ n, List.Chain' (· ≤ ·) (failureWaits n b) ∧
      ∀ w ∈ failureWaits n b, w ≤ b.maxInterval) ∧
    (∀ rest, runSleeps (.success :: .failure :: rest) b =
      none :: some b.initialInterval ::
        runSleeps rest (nextBackOff (resetBackOff b)).2) ∧
    consumerBackOff.maxInterval = 30000 ∧
    consumerBackOff.initialInterval = 500 ∧
    consumerBackOff.currentInterval = consumerBackOff.initialInterval := by
  refine ⟨fun n => failureWaits_chain n b h, ?_, rfl, rfl, rfl⟩
  intro rest
  simp [runSleeps, nextBackOff, resetBackOff]

/-- Witness for C4 at the consumer's configured backoff and a ten-failure
run. -/
theorem C4_backoff_monotone_and_reset_witness :
    (List.Chain' (· ≤ ·) (failureWaits 10 consumerBackOff) ∧
      ∀ w ∈ failureWaits 10 consumerBackOff, w ≤ consumerBackOff.maxInterval) ∧
    runSleeps [.success, .failure] consumerBackOff =
      [none, some consumerBackOff.initialInterval] ∧
    consumerBackOff.maxInterval = 30000 := by
  have h := C4_backoff_monotone_and_reset consumerBackOff (by decide)
  exact ⟨h.1 10, by simpa using h.2.1 [], h.2.2.1⟩

theorem orgPatternAccepts_eq (lit s : String) :
    orgPatternAccepts ("^" ++ lit ++ ".+") s =
      (lit.toList.isPrefixOf s.toList &&
        decide (lit.toList.length < s.toList.length)) := by
  have hdata : ("^" ++ lit ++ ".+").toList = '^' :: (lit.toList ++ ['.', '+']) := by
    show ("^" ++ lit ++ ".+").data = '^' :: (lit.data ++ ['.', '+'])
    rw [String.data_append, String.data_append]
    rfl
  unfold orgPatternAccepts
  rw [hdata]
  have hrev : (lit.toList ++ ['.', '+']).reverse = '+' :: '.' :: lit.toList.reverse := by
    simp
  dsimp only
  rw [if_pos rfl, hrev]
  dsimp only
  rw [if_pos ⟨rfl, rfl⟩, List.reverse_reverse]

theorem string_ne_empty_iff {s : String} : s ≠ "" ↔ s.data ≠ [] := by
  constructor
  · intro h hdata
    exact h (String.ext (by simpa using hdata))
  · intro h hs
    exact h (by rw [hs])

theorem orgPatternAccepts_iff (lit s : String) :
    orgPatternAccepts ("^" ++ lit ++ ".+") s = true ↔
      ∃ org : String, org ≠ "" ∧ s = lit ++ org := by
  rw [orgPatternAccepts_eq, Bool.and_eq_true, List.isPrefixOf_iff_prefix,
    decide_eq_true_eq]
  constructor
  · rintro ⟨⟨t, ht⟩, hlen⟩
    refine ⟨t.asString, ?_, ?_⟩
    · rw [string_ne_empty_iff]
      show t ≠ []
      intro hE
      subst hE
      rw [← ht] at hlen
      simp at hlen
    · apply String.ext
      show s.data = (lit ++ t.asString).data
      rw [String.data_append]
      exact ht.symm
  · rintro ⟨org, hne, rfl⟩
    have hdata2 : (lit ++ org).toList = lit.toList ++ org.toList :=
      toList_append lit org
    have hpos : 0 < org.toList.length :=
      List.length_pos.mpr (string_ne_empty_iff.mp hne)
    constructor
    · rw [hdata2]
      exact ⟨org.toList, rfl⟩
    · rw [hdata2, List.length_append]
      omega

theorem orgPattern_assoc (name p : String) :
    "^" ++ name ++ "__" ++ p ++ "__.+" =
      "^" ++ (name ++ "__" ++ p ++ "__") ++ ".+" := by
  have hlit : ("__.+" : String).data = ("__" : String).data ++ (".+" : String).data :=
    rfl
  apply String.ext
  simp only [String.data_append, List.append_assoc, hlit]
  rfl

/-- C8: the subscription strings built from a topic descriptor and the
configured pods: a global topic subscribes to exactly its bare name; a
pod-scoped topic subscribes to `name__pod` for each configured pod; an
org-scoped topic subscribes, for each configured pod, to one anchored regex
that matches exactly the strings made of the topic name, that pod, and any
(non-empty) org suffix. -/
theorem C8_topic_subscription_patterns (t : TopicDescr) (pods : List String) :
    (t.scope = .globalScope → buildTopicRegexes t pods = [t.name]) ∧
    (t.scope = .podScope →
      buildTopicRegexes t pods = pods.map (fun p => t.name ++ "__" ++ p)) ∧
    (t.scope = .orgScope →
      buildTopicRegexes t pods =
        pods.map (fun p => "^" ++ t.name ++ "__" ++ p ++ "__.+") ∧
      ∀ p s, orgPatternAccepts ("^" ++ t.name ++ "__" ++ p ++ "__.+") s = true ↔
        ∃ org : String, org ≠ "" ∧ s = t.name ++ "__" ++ p ++ "__" ++ org) := by
  refine ⟨?_, ?_, ?_⟩
  · intro h
    simp [buildTopicRegexes, h]
  · intro h
    simp [buildTopicRegexes, h]
  · intro h
    refine ⟨by simp [buildTopicRegexes, h], ?_⟩
    intro p s
    rw [orgPattern_assoc, orgPatternAccepts_iff]

/-- Witness for C8 at a concrete descriptor per scope, one configured pod,
and a concrete org topic id. -/
theorem C8_topic_subscription_patterns_witness :
    buildTopicRegexes ⟨.globalScope, "identity"⟩ ["prd"] = ["identity"] ∧
    buildTopicRegexes ⟨.podScope, "identity"⟩ ["prd"] = ["identity__prd"] ∧
    buildTopicRegexes ⟨.orgScope, "identity"⟩ ["prd"] = ["^identity__prd__.+"] ∧
    orgPatternAccepts "^identity__prd__.+" "identity__prd__acme" = true := by
  have h := C8_topic_subscription_patterns ⟨.orgScope, "identity"⟩ ["prd"]
  have hacc := (h.2.2 rfl).2 "prd" "identity__prd__acme"
  refine ⟨?_, ?_, ?_, ?_⟩
  · exact (C8_topic_subscription_patterns ⟨.globalScope, "identity"⟩ ["prd"]).1 rfl
  · exact (C8_topic_subscription_patterns ⟨.podScope, "identity"⟩ ["prd"]).2.1 rfl
  · simpa using (h.2.2 rfl).1
  · exact hacc.mpr ⟨"acme", by decide, by decide⟩

/-- Sample uploader configured as `NewPublisher` does for a 1MB transport
limit, with a serializer reporting a fixed payload size. -/
def sampleUploader : UploaderModel :=
  { bucket := "bucket",
    uploadThreshold := newPublisherUploadThreshold 1000000,
    serializedLen := fun _ => 900001 }

/-- C9: the large-event upload threshold is the configured message-max-bytes
minus the 100000-byte metadata padding, floored at zero, and `ShouldUpload`
holds exactly when an external bucket is configured, the event is non-nil,
and the serialized JSON length strictly exceeds the threshold. -/
theorem C9_upload_threshold (mmb : Int) (u : UploaderModel)
    (ev : Option Event) :
    newPublisherUploadThreshold mmb = max (mmb - 100000) 0 ∧
    (ShouldUpload u ev = true ↔
      u.bucket ≠ "" ∧ ∃ e, ev = some e ∧
        (u.serializedLen e : Int) > u.uploadThreshold) := by
  constructor
  · unfold newPublisherUploadThreshold
    rcases lt_or_le (mmb - 100000) 0 with h | h
    · rw [if_pos h, max_eq_right h.le]
    · rw [if_neg (not_lt.mpr h), max_eq_left h]
  · cases ev with
    | none => simp [ShouldUpload]
    | some e =>
      by_cases hb : u.bucket = ""
      · simp [ShouldUpload, hb]
      · simp [ShouldUpload, hb]

/-- Witness for C9: the default 1MB limit yields a 900000-byte threshold, a
50KB limit floors to zero, and a concrete oversized event uploads. -/
theorem C9_upload_threshold_witness :
    newPublisherUploadThreshold 1000000 = max (1000000 - 100000) 0 ∧
    newPublisherUploadThreshold 50000 = max (50000 - 100000) 0 ∧
    ShouldUpload sampleUploader (some sampleEvent) = true ∧
    ShouldUpload sampleUploader none = false := by
  refine ⟨(C9_upload_threshold 1000000 sampleUploader none).1,
    (C9_upload_threshold 50000 sampleUploader none).1, ?_, ?_⟩
  · exact (C9_upload_threshold 1000000 sampleUploader (some sampleEvent)).2.mpr
      ⟨by decide, sampleEvent, rfl, by decide⟩
  · cases hval : ShouldUpload sampleUploader none with
    | false => rfl
    | true =>
      rcases (C9_upload_threshold 1000000 sampleUploader none).2.mp hval with
        ⟨-, e, heq, -⟩
      cases heq

end Atlas
